import Mathlib

/-!
Verification development for the dynamo-lang front-end compiler
(src/parser.py): a line-oriented parser for a small chemical reaction
network language.  Python strings are modelled as lists of characters,
Python exceptions as an explicit error type threaded through `Except`,
and the three result dictionaries as association lists together with a
record type for the per-species drain entry.
-/

namespace Dynamo

/-- Python strings are modelled as lists of characters. -/
abbrev Str := List Char

/-- Helper turning a Lean string literal into the character-list model. -/
def chars (s : String) : Str := s.toList

/-- Models Python whitespace on one character (ASCII fragment: space, tab,
newline, carriage return, vertical tab, form feed). -/
def pyIsSpace (c : Char) : Bool :=
  c.toNat = 32 || c.toNat = 9 || c.toNat = 10 || c.toNat = 13 || c.toNat = 11 || c.toNat = 12

/-- Models a decimal digit character (ASCII 0-9). -/
def pyIsDigit (c : Char) : Bool := 48 ≤ c.toNat && c.toNat ≤ 57

/-- Models an alphabetic character (ASCII letters; the source uses the
Python Unicode predicate str.isalpha, of which this is the ASCII fragment). -/
def pyIsAlphaChar (c : Char) : Bool :=
  (97 ≤ c.toNat && c.toNat ≤ 122) || (65 ≤ c.toNat && c.toNat ≤ 90)

/-- Models sym.isdecimal(): non-empty and every character a decimal digit. -/
def isDecimalStr (s : Str) : Bool := !s.isEmpty && s.all pyIsDigit

/-- Models sym.isalpha(): non-empty and every character alphabetic. -/
def isAlphaStr (s : Str) : Bool := !s.isEmpty && s.all pyIsAlphaChar

/-- Value of a digit string, as computed by int(sym) on a decimal string. -/
def digitsToNat (s : Str) : Nat := s.foldl (fun a c => a * 10 + (c.toNat - 48)) 0

/-- Models str.strip(): remove leading and trailing whitespace. -/
def pyStrip (s : Str) : Str :=
  ((s.dropWhile pyIsSpace).reverse.dropWhile pyIsSpace).reverse

/-- Worker for str.split() with no argument: accumulates the current token
in reverse while scanning. -/
def splitWsAux : Str → Str → List Str
  | [], acc => if acc.isEmpty then [] else [acc.reverse]
  | c :: rest, acc =>
    if pyIsSpace c then
      if acc.isEmpty then splitWsAux rest [] else acc.reverse :: splitWsAux rest []
    else splitWsAux rest (c :: acc)

/-- Models str.split() with no argument: split on runs of whitespace,
producing no empty tokens. -/
def pySplitWs (s : Str) : List Str := splitWsAux s []

/-- Models str.startswith(p). -/
def pyStartsWith (p s : Str) : Bool := p.isPrefixOf s

/-- Models str.partition(sep) for a non-empty separator: locate the first
occurrence of sep and return the pieces before and after it, or none when
sep does not occur (Python then returns the whole string and two empties;
callers recover that shape with getD). -/
def pyPartition (sep : Str) : Str → Option (Str × Str)
  | [] => if sep.isEmpty then some ([], []) else none
  | c :: rest =>
    if sep.isPrefixOf (c :: rest) then some ([], (c :: rest).drop sep.length)
    else (pyPartition sep rest).map fun p => (c :: p.1, p.2)

/-- Models the Python substring test, sep in s. -/
def containsSub (sep s : Str) : Bool := (pyPartition sep s).isSome

/-- The six statement kinds of the source IdentifierType enumeration. -/
inductive IdentifierType where
  | PARAM_DOUBLE
  | PARAM_SINGLE_R
  | PARAM_SINGLE_L
  | DRAIN_OUT
  | DRAIN_IN
  | INITIAL_COND
  deriving DecidableEq

/-- The human-readable messages carried by ParseError in the source,
modelled as a closed enumeration instead of formatted strings.  The
invalidSymbol case carries the offending token that the source splices
into its message. -/
inductive Msg where
  | invalidMultiplier
  | invalidSymbol (sym : Str)
  | drainNoMultipliers
  | noSymbols
  | emptySymbolDecl
  | unexpectedStatement
  | nonNumericValue
  | initialExpectsOne
  | tooManyTwoWay
  | tooManyOneWay
  | tooManyDrain
  deriving DecidableEq

/-- Exceptions observable from the modelled code.  parseError models the
ParseError.formatted family carrying a line number and a message.
stopIteration models next() called on an exhausted iterator inside the
sort_out generator (Python converts it to RuntimeError under PEP 479;
either way it is not a ParseError and carries no line number).
literalEvalError models the ValueError or SyntaxError raised by
ast.literal_eval on a string that is not a literal.  indexError models
subscripting an empty tuple. -/
inductive Err where
  | parseError (lineno : Nat) (msg : Msg)
  | stopIteration
  | literalEvalError
  | indexError
  deriving DecidableEq

/-- True exactly for members of the ParseError family, the only errors
that carry a source line number. -/
def Err.isParseFamily : Err → Bool
  | .parseError _ _ => true
  | _ => false

/-- Python values produced by evaluating the literals that
ast.literal_eval accepts: numbers, booleans, None, strings and the
container literals.  Floats are represented by their exact decimal value
as a rational; no arithmetic is ever performed on them by the parser, so
IEEE rounding never becomes observable.  Container values keep their
parsed element sequences; the parser only stores values and never
compares them, so the unordered equality of Python sets and dictionaries
is not modelled.  Complex and bytes literals are omitted. -/
inductive PyVal where
  | intVal (n : Int)
  | floatVal (q : ℚ)
  | boolVal (b : Bool)
  | noneVal
  | strVal (s : Str)
  | listVal (xs : List PyVal)
  | tupleVal (xs : List PyVal)
  | setVal (xs : List PyVal)
  | dictVal (xs : List (PyVal × PyVal))

/-- Splits an optional single leading sign off a literal (ast.literal_eval
accepts exactly one unary plus or minus in front of a number). -/
def stripSign (s : Str) : Int × Str :=
  match s with
  | c :: rest => if c = '-' then (-1, rest) else if c = '+' then (1, rest) else (1, s)
  | [] => (1, s)

/-- A hexadecimal digit character (0-9, a-f, A-F). -/
def isHexDigit (c : Char) : Bool :=
  pyIsDigit c || (97 ≤ c.toNat && c.toNat ≤ 102) || (65 ≤ c.toNat && c.toNat ≤ 70)

/-- An octal digit character (0-7). -/
def isOctDigit (c : Char) : Bool := 48 ≤ c.toNat && c.toNat ≤ 55

/-- A binary digit character (0 or 1). -/
def isBinDigit (c : Char) : Bool := c.toNat = 48 || c.toNat = 49

/-- Numeric value of one digit in bases up to 16. -/
def hexDigitVal (c : Char) : Nat :=
  if pyIsDigit c then c.toNat - 48 else if 97 ≤ c.toNat then c.toNat - 87 else c.toNat - 55

/-- Value of a digit string in the given base. -/
def digitsToNatBase (b : Nat) (s : Str) : Nat :=
  s.foldl (fun a c => a * b + hexDigitVal c) 0

/-- A valid decimal integer literal body per the Python grammar: digits
only, and no leading zero unless the whole literal is zeros (int() the
function is more liberal, see pyIntAccepts). -/
def decLitOk (s : Str) : Bool :=
  isDecimalStr s && (s.headD '0' = '0' → s.all fun c => c == '0')

/-- The unsigned integer-literal forms accepted by ast.literal_eval:
hexadecimal (0x), octal (0o), binary (0b) and decimal without leading
zeros.  Underscore separators are omitted from the model. -/
def intLitBody (s : Str) : Option Nat :=
  match s with
  | '0' :: c :: rest =>
    if c = 'x' ∨ c = 'X' then
      if !rest.isEmpty && rest.all isHexDigit then some (digitsToNatBase 16 rest) else none
    else if c = 'o' ∨ c = 'O' then
      if !rest.isEmpty && rest.all isOctDigit then some (digitsToNatBase 8 rest) else none
    else if c = 'b' ∨ c = 'B' then
      if !rest.isEmpty && rest.all isBinDigit then some (digitsToNatBase 2 rest) else none
    else if decLitOk s then some (digitsToNat s) else none
  | _ => if decLitOk s then some (digitsToNat s) else none

/-- Models the integer literals accepted by ast.literal_eval: an optional
sign followed by a decimal, hexadecimal, octal or binary literal body. -/
def parseIntLit (s : Str) : Option Int :=
  let p := stripSign s
  match intLitBody p.2 with
  | some m => some (p.1 * (m : Int))
  | none => none

/-- Scans for the first character satisfying p, returning the text before
it and, when found, the matched character with the remaining text. -/
def breakOnChar (p : Char → Bool) : Str → Str × Option (Char × Str)
  | [] => ([], none)
  | c :: rest =>
    if p c then ([], some (c, rest))
    else
      let r := breakOnChar p rest
      (c :: r.1, r.2)

/-- The exponent marker of a float literal (e or E). -/
def expChar (c : Char) : Bool := c.toNat = 101 || c.toNat = 69

/-- The decimal point. -/
def dotChar (c : Char) : Bool := c.toNat = 46

/-- The mantissa of a float literal: digits with at most one dot, at
least one digit overall; returns the value and whether a dot occurred. -/
def parseMantissa (m : Str) : Option (ℚ × Bool) :=
  let bd := breakOnChar dotChar m
  match bd.2 with
  | none => if isDecimalStr m then some ((digitsToNat m : ℚ), false) else none
  | some pr =>
    if bd.1.all pyIsDigit && pr.2.all pyIsDigit && !(bd.1.isEmpty && pr.2.isEmpty) then
      some ((digitsToNat bd.1 : ℚ) + (digitsToNat pr.2 : ℚ) / (10 ^ pr.2.length), true)
    else none

/-- The unsigned float-literal forms of the Python grammar: a mantissa
containing a dot, or any mantissa followed by an exponent marker and a
signed decimal exponent.  Underscore separators are omitted. -/
def parseFloatMag (s : Str) : Option ℚ :=
  let br := breakOnChar expChar s
  match br.2 with
  | none =>
    match parseMantissa s with
    | some (q, true) => some q
    | _ => none
  | some pr =>
    match parseMantissa br.1 with
    | some qf =>
      let ep := stripSign pr.2
      if isDecimalStr ep.2 then
        some (qf.1 * (10 : ℚ) ^ (ep.1 * (digitsToNat ep.2 : Int)))
      else none
    | none => none

/-- Models the float literals accepted by ast.literal_eval: an optional
sign followed by an unsigned float literal. -/
def parseFloatLit (s : Str) : Option ℚ :=
  let p := stripSign s
  match parseFloatMag p.2 with
  | some q => some ((p.1 : ℚ) * q)
  | none => none

/-- Characters that terminate a bare scalar token inside a literal: the
comma (44), the square brackets (91, 93), the parentheses (40, 41), the
curly brackets (123, 125), the colon (58) and the two quote characters
(39, 34). -/
def pyDelim (c : Char) : Bool :=
  c.toNat = 44 || c.toNat = 91 || c.toNat = 93 || c.toNat = 40 || c.toNat = 41 ||
  c.toNat = 123 || c.toNat = 125 || c.toNat = 58 || c.toNat = 39 || c.toNat = 34

/-- A character that can appear in a bare scalar token. -/
def scalarChar (c : Char) : Bool := !pyIsSpace c && !pyDelim c

/-- Skips leading whitespace. -/
def skipWs (s : Str) : Str := s.dropWhile pyIsSpace

/-- Evaluates one bare scalar token: the keyword constants True, False
and None, else an integer literal, else a float literal. -/
def scalarFromToken (tok : Str) : Option PyVal :=
  if tok = chars "True" then some (.boolVal true)
  else if tok = chars "False" then some (.boolVal false)
  else if tok = chars "None" then some .noneVal
  else
    match parseIntLit tok with
    | some n => some (.intVal n)
    | none =>
      match parseFloatLit tok with
      | some q => some (.floatVal q)
      | none => none

mutual

/-- Recursive-descent model of the literal grammar that ast.literal_eval
accepts: scalars, quoted strings (without escape sequences, prefixes or
triple quotes, which never appear in this language), lists, tuples with
the parenthesized-expression special case, sets and dictionaries, with
optional trailing commas.  The fuel argument bounds the recursion; every
recursive call consumes input, so the fuel chosen by parsePyLiteral is
never exhausted on a real input. -/
def parseLit : Nat → Str → Option (PyVal × Str)
  | 0, _ => none
  | fuel + 1, s =>
    match skipWs s with
    | [] => none
    | c :: rest => parseLitHead fuel c rest

/-- Dispatch on the first significant character of a literal: an opening
bracket starts a container, a quote starts a string, anything else
begins a bare scalar token. -/
def parseLitHead (fuel : Nat) (c : Char) (rest : Str) : Option (PyVal × Str) :=
      if c = '[' then
        match skipWs rest with
        | ']' :: r => some (.listVal [], r)
        | _ =>
          match parseLit fuel rest with
          | some (v, r1) =>
            match parseElemsRest fuel ']' r1 with
            | some (vs, r2) => some (.listVal (v :: vs), r2)
            | none => none
          | none => none
      else if c = '(' then
        match skipWs rest with
        | ')' :: r => some (.tupleVal [], r)
        | _ =>
          match parseLit fuel rest with
          | some (v, r1) =>
            match skipWs r1 with
            | ')' :: r2 => some (v, r2)
            | ',' :: r2 =>
              match skipWs r2 with
              | ')' :: r3 => some (.tupleVal [v], r3)
              | _ =>
                match parseLit fuel r2 with
                | some (v2, r3) =>
                  match parseElemsRest fuel ')' r3 with
                  | some (vs, r4) => some (.tupleVal (v :: v2 :: vs), r4)
                  | none => none
                | none => none
            | _ => none
          | none => none
      else if c = '\x7b' then
        match skipWs rest with
        | '\x7d' :: r => some (.dictVal [], r)
        | _ =>
          match parseLit fuel rest with
          | some (k, r1) =>
            match skipWs r1 with
            | ':' :: r2 =>
              match parseLit fuel r2 with
              | some (w, r3) =>
                match parsePairsRest fuel r3 with
                | some (ps, r4) => some (.dictVal ((k, w) :: ps), r4)
                | none => none
              | none => none
            | _ =>
              match parseElemsRest fuel '\x7d' r1 with
              | some (vs, r2) => some (.setVal (k :: vs), r2)
              | none => none
          | none => none
      else if c = '\x27' ∨ c = '"' then
        let content := rest.takeWhile fun d => d != c
        match rest.drop content.length with
        | d :: r2 => if d = c then some (.strVal content, r2) else none
        | [] => none
      else
        let tok := (c :: rest).takeWhile scalarChar
        if tok.isEmpty then none
        else
          match scalarFromToken tok with
          | some v => some (v, (c :: rest).drop tok.length)
          | none => none

/-- The elements of a bracketed sequence after the first one: repeatedly
a comma and a literal, until the closing bracket, allowing one trailing
comma. -/
def parseElemsRest : Nat → Char → Str → Option (List PyVal × Str)
  | 0, _, _ => none
  | fuel + 1, close, s =>
    match skipWs s with
    | [] => none
    | c :: r =>
      if c = close then some ([], r)
      else if c = ',' then
        match skipWs r with
        | c2 :: r2 =>
          if c2 = close then some ([], r2)
          else
            match parseLit fuel r with
            | some (v, r3) =>
              match parseElemsRest fuel close r3 with
              | some (vs, r4) => some (v :: vs, r4)
              | none => none
            | none => none
        | [] => none
      else none

/-- The key-value pairs of a dictionary after the first one. -/
def parsePairsRest : Nat → Str → Option (List (PyVal × PyVal) × Str)
  | 0, _ => none
  | fuel + 1, s =>
    match skipWs s with
    | '\x7d' :: r => some ([], r)
    | ',' :: r =>
      match skipWs r with
      | '\x7d' :: r2 => some ([], r2)
      | _ =>
        match parseLit fuel r with
        | some (k, r1) =>
          match skipWs r1 with
          | ':' :: r2 =>
            match parseLit fuel r2 with
            | some (w, r3) =>
              match parsePairsRest fuel r3 with
              | some (ps, r4) => some ((k, w) :: ps, r4)
              | none => none
            | none => none
          | _ => none
        | none => none
    | _ => none

end

/-- Parses a whole string as one Python literal: one literal followed by
nothing but whitespace. -/
def parsePyLiteral (s : Str) : Option PyVal :=
  match parseLit (s.length + 1) s with
  | some (v, rest) => if (skipWs rest).isEmpty then some v else none
  | none => none

/-- Models ast.literal_eval: evaluate the string as one Python literal;
on any string that is not a literal the call raises a ValueError or
SyntaxError, an error that is not a ParseError and carries no line
number. -/
def literal_eval (s : Str) : Except Err PyVal :=
  match parsePyLiteral s with
  | some v => .ok v
  | none => .error .literalEvalError

/-- Models the int() builtin on a string: surrounding whitespace, an
optional sign and a non-empty digit string, leading zeros allowed
(underscore separators and non-ASCII digits omitted). -/
def pyIntAccepts (s : Str) : Bool :=
  let p := stripSign (pyStrip s)
  isDecimalStr p.2

/-- Lowercases one ASCII letter. -/
def toLowerCh (c : Char) : Char :=
  if 65 ≤ c.toNat && c.toNat ≤ 90 then Char.ofNat (c.toNat + 32) else c

/-- Models the float() builtin on a string: surrounding whitespace, an
optional sign, then a float literal, a plain digit string, or the words
inf, infinity or nan in any letter case (underscores omitted). -/
def pyFloatAccepts (s : Str) : Bool :=
  let p := stripSign (pyStrip s)
  (parseFloatMag p.2).isSome || isDecimalStr p.2 ||
    (let low := p.2.map toLowerCh
     low == chars "inf" || low == chars "infinity" || low == chars "nan")

/-- Models is_numeric from the source: true when float(number) or
int(number) succeeds. -/
def is_numeric (number : Str) : Bool :=
  pyFloatAccepts number || pyIntAccepts number

/-- The Identifier record of the source: a kind, the left symbol tuple and
the optional right symbol tuple. -/
structure Identifier where
  type : IdentifierType
  left_symbols : List Str
  right_symbols : Option (List Str) := none
  deriving DecidableEq

/-- Models the join with the three-character separator space-plus-space
used by stringify_reaction. -/
def joinPlus : List Str → Str
  | [] => []
  | [x] => x
  | x :: y :: rest => x ++ ' ' :: '+' :: ' ' :: joinPlus (y :: rest)

/-- Models Identifier.stringify_reaction: render a reaction identifier to
its canonical string.  For the reverse-alias kind the sides are swapped so
the canonical string reads as a forward reaction.  For non-reaction kinds
the StringIO stays empty and the empty string is returned. -/
def stringify_reaction (ident : Identifier) : Str :=
  match ident.type with
  | .PARAM_DOUBLE =>
    joinPlus ident.left_symbols ++ chars " <=> " ++ joinPlus (ident.right_symbols.getD [])
  | .PARAM_SINGLE_R =>
    joinPlus ident.left_symbols ++ chars " -> " ++ joinPlus (ident.right_symbols.getD [])
  | .PARAM_SINGLE_L =>
    joinPlus (ident.right_symbols.getD []) ++ chars " -> " ++ joinPlus ident.left_symbols
  | _ => []

/-- Models the sort_out generator inside Identifier.parse_identifier.
A decimal token is a multiplier: the next token is consumed unchecked and
replicated that many times; when the iterator is exhausted the next() call
raises StopIteration, which the source wraps in a try that catches only
ValueError, so it escapes (the except branch raising the Invalid
multiplier ParseError is unreachable: next() never raises ValueError and
int(sym) cannot fail once sym.isdecimal() holds).  An alphabetic token is
yielded once, the four operator tokens are skipped, and any other token
raises the invalid-symbol ParseError. -/
def sort_out (lineno : Nat) : List Str → Except Err (List Str)
  | [] => .ok []
  | sym :: rest =>
    if isDecimalStr sym then
      match rest with
      | [] => .error .stopIteration
      | nxt :: rest2 => (sort_out lineno rest2).map (List.replicate (digitsToNat sym) nxt ++ ·)
    else if isAlphaStr sym then
      (sort_out lineno rest).map (sym :: ·)
    else if sym = ['+'] ∨ sym = chars "->" ∨ sym = chars "<=>" ∨ sym = chars "<-" then
      sort_out lineno rest
    else .error (.parseError lineno (.invalidSymbol sym))

/-- The operator substring on which a reaction kind splits its name. -/
def reactionOp (t : IdentifierType) : Str :=
  match t with
  | .PARAM_DOUBLE => chars "<=>"
  | .PARAM_SINGLE_R => chars "->"
  | _ => chars "<-"

/-- Models Identifier.parse_identifier.  Drain kinds demand exactly one
expanded symbol; initial conditions demand at least one; reaction kinds
split the raw name on the kind operator, whitespace-split each half,
reject the statement when both halves hold no tokens (a check made before
multiplier expansion), and otherwise expand each half independently. -/
def parse_identifier (identifier_type : IdentifierType) (lineno : Nat) (raw : Str) :
    Except Err Identifier :=
  match identifier_type with
  | .DRAIN_OUT | .DRAIN_IN => do
    let symbols ← sort_out lineno (pySplitWs raw)
    if symbols.length ≠ 1 then .error (.parseError lineno .drainNoMultipliers)
    else .ok ⟨identifier_type, symbols, none⟩
  | .INITIAL_COND => do
    let symbols ← sort_out lineno (pySplitWs raw)
    if symbols.length = 0 then .error (.parseError lineno .noSymbols)
    else .ok ⟨identifier_type, symbols, none⟩
  | t =>
    let parts := (pyPartition (reactionOp t) raw).getD (raw, [])
    let left_toks := pySplitWs parts.1
    let right_toks := pySplitWs parts.2
    if left_toks.length = right_toks.length ∧ left_toks.length = 0 then
      .error (.parseError lineno .emptySymbolDecl)
    else do
      let l ← sort_out lineno left_toks
      let r ← sort_out lineno right_toks
      .ok ⟨t, l, some r⟩

/-- Models cooked_lines: pair every raw line with its position as produced
by the Python builtin enumerate (which counts from zero), strip it, and
keep only the stripped lines that are non-empty and do not begin with the
comment character. -/
def cooked_lines (lines : List Str) : List (Nat × Str) :=
  ((lines.enum.map fun p => (p.1, pyStrip p.2)).filter
    fun p => !p.2.isEmpty && !pyStartsWith ['#'] p.2)

/-- Models get_name_val: split a statement line on the first separator
occurrence into a stripped name part and a stripped value part, failing
when the separator is absent. -/
def get_name_val (line : Str) (line_number : Nat) (seperator : Str := [':']) :
    Except Err (Str × Str) :=
  match pyPartition seperator line with
  | none => .error (.parseError line_number .unexpectedStatement)
  | some p => .ok (pyStrip p.1, pyStrip p.2)

/-- Models the parse_plural_value generator inside parse_value: strip each
comma-separated piece, reject non-numeric pieces with a ParseError, and
evaluate each piece as a literal. -/
def parse_plural_value (line_number : Nat) : List Str → Except Err (List PyVal)
  | [] => .ok []
  | raw :: rest =>
    let v := pyStrip raw
    if !is_numeric v then .error (.parseError line_number .nonNumericValue)
    else do
      let x ← literal_eval v
      let tail ← parse_plural_value line_number rest
      .ok (x :: tail)

/-- Models parse_value: with a comma present, split on every comma and run
the guarded plural path; with no comma, evaluate the stripped string with
ast.literal_eval directly, with no numeric guard and no exception
translation, and wrap the result in a one-element tuple. -/
def parse_value (value : Str) (line_number : Nat) : Except Err (List PyVal) :=
  if containsSub [','] value then
    parse_plural_value line_number (value.splitOn ',')
  else
    (literal_eval (pyStrip value)).map ([·])

/-- Models get_identifier_type inside parse_name: the classification
precedence over the raw name string. -/
def get_identifier_type (name : Str) : IdentifierType :=
  if pyStartsWith (chars "->") name then .DRAIN_IN
  else if pyStartsWith (chars "<-") name then .DRAIN_OUT
  else if containsSub (chars "<=>") name then .PARAM_DOUBLE
  else if containsSub (chars "->") name then .PARAM_SINGLE_R
  else if containsSub (chars "<-") name then .PARAM_SINGLE_L
  else .INITIAL_COND

/-- Models parse_name: classify the name and parse it as an identifier. -/
def parse_name (name : Str) (line_number : Nat) : Except Err Identifier :=
  parse_identifier (get_identifier_type name) line_number name

/-- The per-species drain record: outF models the nested dictionary under
the out key (whose single key is factor) and inC the one under the in key
(whose single key is constant). -/
structure DrainEntry where
  outF : Option PyVal := none
  inC : Option PyVal := none

/-- A params entry: a scalar rate, or the two-element tuple stored
verbatim for a reversible reaction declared with two values. -/
inductive ParamEntry where
  | scalar (v : PyVal)
  | pair (v w : PyVal)

/-- Association-list update with Python dictionary semantics: an existing
key keeps its position and gets the new value, a new key is appended. -/
def dictSet {β : Type} (k : Str) (v : β) : List (Str × β) → List (Str × β)
  | [] => [(k, v)]
  | (k2, v2) :: rest => if k2 = k then (k, v) :: rest else (k2, v2) :: dictSet k v rest

/-- Association-list lookup. -/
def dictGet {β : Type} (k : Str) : List (Str × β) → Option β
  | [] => none
  | (k2, v) :: rest => if k2 = k then some v else dictGet k rest

/-- The ParsedDictResults record: the three output mappings. -/
structure ParsedDictResults where
  initial : List (Str × PyVal) := []
  params : List (Str × ParamEntry) := []
  drain : List (Str × DrainEntry) := []

/-- One iteration of the get_dicts loop, folding a single parsed statement
into the three mappings.  Value tuples of the wrong size raise the
kind-specific arity ParseError; subscripting an empty symbol or value
tuple, which the source never guards against, raises IndexError. -/
def get_dicts_step (line_number : Nat) (identifier : Identifier) (value : List PyVal)
    (result : ParsedDictResults) : Except Err ParsedDictResults :=
  match identifier.type with
  | .INITIAL_COND =>
    if value.length > 1 then .error (.parseError line_number .initialExpectsOne)
    else
      match identifier.left_symbols, value with
      | s :: _, v :: _ => .ok { result with initial := dictSet s v result.initial }
      | _, _ => .error .indexError
  | .PARAM_DOUBLE =>
    match value with
    | [v] =>
      .ok { result with
            params := dictSet (stringify_reaction identifier) (.scalar v) result.params }
    | [v, w] =>
      .ok { result with
            params := dictSet (stringify_reaction identifier) (.pair v w) result.params }
    | _ => .error (.parseError line_number .tooManyTwoWay)
  | .PARAM_SINGLE_L | .PARAM_SINGLE_R =>
    match value with
    | [v] =>
      .ok { result with
            params := dictSet (stringify_reaction identifier) (.scalar v) result.params }
    | _ => .error (.parseError line_number .tooManyOneWay)
  | .DRAIN_OUT =>
    match value with
    | [v] =>
      match identifier.left_symbols with
      | s :: _ =>
        let entry : DrainEntry :=
          match dictGet s result.drain with
          | some e => { e with outF := some v }
          | none => { outF := some v, inC := none }
        .ok { result with drain := dictSet s entry result.drain }
      | [] => .error .indexError
    | _ => .error (.parseError line_number .tooManyDrain)
  | .DRAIN_IN =>
    match value with
    | [v] =>
      match identifier.left_symbols with
      | s :: _ =>
        let entry : DrainEntry :=
          match dictGet s result.drain with
          | some e => { e with inC := some v }
          | none => { outF := none, inC := some v }
        .ok { result with drain := dictSet s entry result.drain }
      | [] => .error .indexError
    | _ => .error (.parseError line_number .tooManyDrain)

/-- The loop of get_dicts, folding statements from a given accumulator. -/
def get_dicts_from (result : ParsedDictResults) :
    List (Nat × Identifier × List PyVal) → Except Err ParsedDictResults
  | [] => .ok result
  | (ln, ident, value) :: rest => do
    let r ← get_dicts_step ln ident value result
    get_dicts_from r rest

/-- Models get_dicts: fold all parsed statements into fresh mappings. -/
def get_dicts (parsed : List (Nat × Identifier × List PyVal)) :
    Except Err ParsedDictResults :=
  get_dicts_from {} parsed

/-- Models parse_file: filter and number the lines, split each statement,
parse the name and then the value.  The source interleaves this generator
with the get_dicts fold; since the fold result is discarded whenever any
statement raises, running the stages strictly one after the other is
observationally the same. -/
def parse_file (lines : List Str) : Except Err (List (Nat × Identifier × List PyVal)) :=
  (cooked_lines lines).mapM fun p => do
    let nv ← get_name_val p.2 p.1
    let pn ← parse_name nv.1 p.1
    let pv ← parse_value nv.2 p.1
    return (p.1, pn, pv)

/-! ## Specification-side helper definitions used by the theorems -/

/-- One syntactic item of a valid expression token stream: a multiplier
pair, a bare symbol, or an operator token. -/
inductive TokItem where
  | mult (count sym : Str)
  | plain (sym : Str)
  | oper (o : Str)

/-- The raw tokens an item contributes to the stream. -/
def TokItem.toTokens : TokItem → List Str
  | .mult c s => [c, s]
  | .plain s => [s]
  | .oper o => [o]

/-- The symbols an item should expand to: the multiplier count copies of
its symbol, the bare symbol once, nothing for an operator. -/
def TokItem.expandSpec : TokItem → List Str
  | .mult c s => List.replicate (digitsToNat c) s
  | .plain s => [s]
  | .oper _ => []

/-- Well-formedness of an item: a decimal count with an alphabetic
symbol, an alphabetic bare symbol, or one of the four operator tokens. -/
def TokItem.wf : TokItem → Prop
  | .mult c s => isDecimalStr c = true ∧ isAlphaStr s = true
  | .plain s => isAlphaStr s = true
  | .oper o => o = ['+'] ∨ o = chars "->" ∨ o = chars "<=>" ∨ o = chars "<-"

instance : DecidablePred TokItem.wf := fun it => by
  cases it <;> · simp only [TokItem.wf]; infer_instance

/-- The token stream obtained by whitespace-splitting the rendering of a
symbol list joined with the plus separator: the symbols with a plus token
between each adjacent pair. -/
def intersperseP : List Str → List Str
  | [] => []
  | [x] => [x]
  | x :: y :: rest => x :: ['+'] :: intersperseP (y :: rest)

/-- The kind a reaction identifier presents after rendering: the
reverse-alias kind renders as a forward reaction. -/
def normKind (t : IdentifierType) : IdentifierType :=
  if t = .PARAM_SINGLE_L then .PARAM_SINGLE_R else t

/-- The left side of the rendered (direction-normalized) reaction. -/
def normLeft (t : IdentifierType) (L R : List Str) : List Str :=
  if t = .PARAM_SINGLE_L then R else L

/-- The right side of the rendered (direction-normalized) reaction. -/
def normRight (t : IdentifierType) (L R : List Str) : List Str :=
  if t = .PARAM_SINGLE_L then L else R

/-- Equality of modelled computation results is decidable, so concrete
runs of the parser can be checked by evaluation. -/
instance {ε α : Type} [DecidableEq ε] [DecidableEq α] : DecidableEq (Except ε α) := fun x y =>
  match x, y with
  | .ok a, .ok b =>
    if h : a = b then isTrue (by rw [h]) else isFalse (fun hc => h (Except.ok.inj hc))
  | .error e, .error f =>
    if h : e = f then isTrue (by rw [h]) else isFalse (fun hc => h (Except.error.inj hc))
  | .ok _, .error _ => isFalse (fun hc => Except.noConfusion hc)
  | .error _, .ok _ => isFalse (fun hc => Except.noConfusion hc)

/-! ## Basic facts about the character classes -/

/-- An alphabetic character is not a decimal digit. -/
theorem alphaChar_not_digit {c : Char} (h : pyIsAlphaChar c = true) : pyIsDigit c = false := by
  simp only [pyIsAlphaChar, Bool.or_eq_true, Bool.and_eq_true, decide_eq_true_eq] at h
  simp only [pyIsDigit, Bool.and_eq_false_iff, decide_eq_false_iff_not]
  omega

/-- An alphabetic character is not whitespace. -/
theorem alphaChar_not_space {c : Char} (h : pyIsAlphaChar c = true) : pyIsSpace c = false := by
  simp only [pyIsAlphaChar, Bool.or_eq_true, Bool.and_eq_true, decide_eq_true_eq] at h
  simp only [pyIsSpace, Bool.or_eq_false_iff, decide_eq_false_iff_not]
  omega

/-- An alphabetic character is not a dash, an angle bracket or a hash. -/
theorem alphaChar_ne {c : Char} (h : pyIsAlphaChar c = true) :
    c ≠ '-' ∧ c ≠ '<' ∧ c ≠ '#' := by
  refine ⟨?_, ?_, ?_⟩ <;> rintro rfl <;> revert h <;> decide

/-- An alphabetic token is non-empty. -/
theorem alphaStr_ne_nil {s : Str} (h : isAlphaStr s = true) : s ≠ [] := by
  cases s with
  | nil => simp [isAlphaStr] at h
  | cons c cs => simp

/-- Every character of an alphabetic token is alphabetic. -/
theorem alphaStr_chars {s : Str} (h : isAlphaStr s = true) :
    ∀ c ∈ s, pyIsAlphaChar c = true := by
  simp only [isAlphaStr, Bool.and_eq_true, List.all_eq_true] at h
  exact h.2

/-- An alphabetic token is never a decimal token. -/
theorem alpha_not_decimal {s : Str} (h : isAlphaStr s = true) : isDecimalStr s = false := by
  cases s with
  | nil => simp [isAlphaStr] at h
  | cons c cs =>
    have hc : pyIsAlphaChar c = true := alphaStr_chars h c (by simp)
    simp [isDecimalStr, alphaChar_not_digit hc]

/-! ## C1: the Line Filter -/

/-- C1 counterexample: the claim states 1-based line numbering, but the
source enumerates lines with the Python builtin enumerate and its default
start of zero, so the single surviving line of a one-line file is paired
with line number 0, not 1. -/
theorem spec_c1_counterexample :
    cooked_lines [chars "X : 1"] = [(0, chars "X : 1")] ∧
    cooked_lines [chars "X : 1"] ≠ [(1, chars "X : 1")] := by decide

/-- C1 (amended): the Line Filter yields for each surviving line the pair
of its 0-based position in the original input (filtered lines included)
and its whitespace-trimmed text, and a line survives exactly when its
trimmed form is non-empty and does not start with the hash character;
the yielded positions are strictly increasing, reflecting file order. -/
theorem spec_c1 (lines : List Str) (i : Nat) (t : Str) :
    ((i, t) ∈ cooked_lines lines ↔
      ∃ raw, lines[i]? = some raw ∧ t = pyStrip raw ∧ t ≠ [] ∧
        pyStartsWith ['#'] t = false) ∧
    (cooked_lines lines).Pairwise (fun p q => p.1 < q.1) := by
  constructor
  · simp only [cooked_lines, List.mem_filter, List.mem_map, List.mem_enum_iff_getElem?,
      Bool.and_eq_true, Bool.not_eq_true']
    constructor
    · rintro ⟨⟨⟨j, raw⟩, hj, heq⟩, hnb, hns⟩
      injection heq with h1 h2
      subst h1
      subst h2
      refine ⟨raw, hj, rfl, ?_, hns⟩
      intro hnil
      rw [hnil] at hnb
      simp at hnb
    · rintro ⟨raw, hraw, rfl, hne, hns⟩
      refine ⟨⟨⟨i, raw⟩, hraw, rfl⟩, ?_, hns⟩
      cases hE : (pyStrip raw).isEmpty with
      | false => rfl
      | true => exact absurd (by simpa using hE) hne
  · have base : (lines.enum.map fun p => (p.1, pyStrip p.2)).Pairwise
        (fun p q : Nat × Str => p.1 < q.1) := by
      rw [List.pairwise_map]
      have : (lines.enum.map Prod.fst).Pairwise (· < ·) := by
        rw [List.enum_map_fst]
        exact List.pairwise_lt_range _
      rwa [List.pairwise_map] at this
    exact base.sublist (List.filter_sublist _)

/-! ## C2: the Value Parser on comma-free strings

The lemmas below show that a string accepted by the integer or float
literal grammar consists of scalar-token characters only, so the literal
parser evaluates it through its bare-scalar branch. -/

/-- A character with a code in the covering ranges (plus sign through
digits except the comma, upper-case letters, lower-case letters) can
appear in a bare scalar token. -/
theorem scalarChar_of_toNat {c : Char}
    (h : (43 ≤ c.toNat ∧ c.toNat ≤ 57 ∧ c.toNat ≠ 44) ∨
      (65 ≤ c.toNat ∧ c.toNat ≤ 90) ∨ (97 ≤ c.toNat ∧ c.toNat ≤ 122)) :
    scalarChar c = true := by
  simp only [scalarChar, pyIsSpace, pyDelim, Bool.and_eq_true, Bool.not_eq_true',
    Bool.or_eq_false_iff, decide_eq_false_iff_not]
  omega

/-- Decimal digits are scalar-token characters. -/
theorem scalarChar_of_digit {c : Char} (h : pyIsDigit c = true) : scalarChar c = true := by
  apply scalarChar_of_toNat
  simp only [pyIsDigit, Bool.and_eq_true, decide_eq_true_eq] at h
  omega

/-- Hexadecimal digits are scalar-token characters. -/
theorem scalarChar_of_hex {c : Char} (h : isHexDigit c = true) : scalarChar c = true := by
  apply scalarChar_of_toNat
  simp only [isHexDigit, pyIsDigit, Bool.or_eq_true, Bool.and_eq_true,
    decide_eq_true_eq] at h
  omega

/-- Octal digits are scalar-token characters. -/
theorem scalarChar_of_oct {c : Char} (h : isOctDigit c = true) : scalarChar c = true := by
  apply scalarChar_of_toNat
  simp only [isOctDigit, Bool.and_eq_true, decide_eq_true_eq] at h
  omega

/-- Binary digits are scalar-token characters. -/
theorem scalarChar_of_bin {c : Char} (h : isBinDigit c = true) : scalarChar c = true := by
  apply scalarChar_of_toNat
  simp only [isBinDigit, Bool.or_eq_true, decide_eq_true_eq] at h
  omega

/-- Splits a conjunction of Booleans known to be true. -/
theorem and_true_split {a b : Bool} (h : (a && b) = true) : a = true ∧ b = true := by
  rw [Bool.and_eq_true] at h
  exact h

/-- A list whose emptiness test is false is not the empty list. -/
theorem ne_nil_of_isEmpty_eq_false {l : Str} (h : l.isEmpty = false) : l ≠ [] := by
  cases l
  · simp at h
  · simp

/-- A decimal token is a non-empty string of digits. -/
theorem decimalStr_parts {u : Str} (h : isDecimalStr u = true) :
    u ≠ [] ∧ u.all pyIsDigit = true := by
  unfold isDecimalStr at h
  obtain ⟨h1, h2⟩ := and_true_split h
  refine ⟨ne_nil_of_isEmpty_eq_false ?_, h2⟩
  rwa [Bool.not_eq_true'] at h1

/-- A valid decimal literal body is non-empty and scalar. -/
theorem decLit_chars {u : Str} (h : decLitOk u = true) :
    u.all scalarChar = true ∧ u ≠ [] := by
  have hd : isDecimalStr u = true := (and_true_split (by unfold decLitOk at h; exact h)).1
  obtain ⟨hne, hdig⟩ := decimalStr_parts hd
  refine ⟨?_, hne⟩
  rw [List.all_eq_true]
  exact fun c hc => scalarChar_of_digit ((List.all_eq_true.mp hdig) c hc)

/-- Every accepted integer-literal body is non-empty and scalar. -/
theorem intLitBody_chars {u : Str} {m : Nat} (h : intLitBody u = some m) :
    u.all scalarChar = true ∧ u ≠ [] := by
  unfold intLitBody at h
  split at h
  next c rest =>
    split at h
    next hx =>
      split at h
      next hcond =>
        refine ⟨?_, by simp⟩
        obtain ⟨-, hdig⟩ := and_true_split hcond
        simp only [List.all_cons, Bool.and_eq_true]
        refine ⟨by decide, ?_, ?_⟩
        · rcases hx with rfl | rfl <;> decide
        · rw [List.all_eq_true]
          exact fun d hd => scalarChar_of_hex ((List.all_eq_true.mp hdig) d hd)
      next => exact absurd h (by simp)
    next hx =>
      split at h
      next ho =>
        split at h
        next hcond =>
          refine ⟨?_, by simp⟩
          obtain ⟨-, hdig⟩ := and_true_split hcond
          simp only [List.all_cons, Bool.and_eq_true]
          refine ⟨by decide, ?_, ?_⟩
          · rcases ho with rfl | rfl <;> decide
          · rw [List.all_eq_true]
            exact fun d hd => scalarChar_of_oct ((List.all_eq_true.mp hdig) d hd)
        next => exact absurd h (by simp)
      next ho =>
        split at h
        next hb =>
          split at h
          next hcond =>
            refine ⟨?_, by simp⟩
            obtain ⟨-, hdig⟩ := and_true_split hcond
            simp only [List.all_cons, Bool.and_eq_true]
            refine ⟨by decide, ?_, ?_⟩
            · rcases hb with rfl | rfl <;> decide
            · rw [List.all_eq_true]
              exact fun d hd => scalarChar_of_bin ((List.all_eq_true.mp hdig) d hd)
          next => exact absurd h (by simp)
        next hb =>
          split at h
          next hdec => exact decLit_chars hdec
          next => exact absurd h (by simp)
  next =>
    split at h
    next hdec => exact decLit_chars hdec
    next => exact absurd h (by simp)

/-- Splitting the optional sign off a string either leaves it unchanged
or removes exactly one leading plus or minus. -/
theorem stripSign_cases (s : Str) :
    s = (stripSign s).2 ∨ ∃ c, (c = '-' ∨ c = '+') ∧ s = c :: (stripSign s).2 := by
  cases s with
  | nil => exact Or.inl rfl
  | cons c cs =>
    by_cases h1 : c = '-'
    · subst h1
      exact Or.inr ⟨'-', Or.inl rfl, by simp [stripSign]⟩
    · by_cases h2 : c = '+'
      · subst h2
        exact Or.inr ⟨'+', Or.inr rfl, by simp [stripSign]⟩
      · exact Or.inl (by simp [stripSign, h1, h2])

/-- Every accepted signed integer literal is non-empty and scalar. -/
theorem intLit_chars {t : Str} {n : Int} (h : parseIntLit t = some n) :
    t.all scalarChar = true ∧ t ≠ [] := by
  simp only [parseIntLit] at h
  obtain ⟨m, hm⟩ : ∃ m, intLitBody (stripSign t).2 = some m := by
    split at h
    next m hm => exact ⟨m, hm⟩
    next => exact absurd h (by simp)
  obtain ⟨hall, hne⟩ := intLitBody_chars hm
  rcases stripSign_cases t with he | ⟨c, hc, he⟩
  · rw [he]
    exact ⟨hall, hne⟩
  · rw [he]
    simp only [List.all_cons, Bool.and_eq_true, ne_eq, reduceCtorEq, not_false_iff]
    refine ⟨⟨?_, hall⟩, by simp⟩
    rcases hc with rfl | rfl <;> decide

/-- A scan that found nothing leaves the input whole. -/
theorem breakOnChar_none {p : Char → Bool} :
    ∀ {s : Str}, (breakOnChar p s).2 = none → (breakOnChar p s).1 = s := by
  intro s
  induction s with
  | nil => intro _; rfl
  | cons c cs ih =>
    intro h
    by_cases hc : p c = true
    · simp [breakOnChar, hc] at h
    · have hb : breakOnChar p (c :: cs) = (c :: (breakOnChar p cs).1, (breakOnChar p cs).2) := by
        simp [breakOnChar, hc]
      rw [hb] at h ⊢
      simpa using ih h

/-- A scan that matched splits the input at the matched character. -/
theorem breakOnChar_some {p : Char → Bool} :
    ∀ {s : Str} {c : Char} {rest : Str}, (breakOnChar p s).2 = some (c, rest) →
      p c = true ∧ s = (breakOnChar p s).1 ++ c :: rest := by
  intro s
  induction s with
  | nil => intro c rest h; simp [breakOnChar] at h
  | cons d ds ih =>
    intro c rest h
    by_cases hd : p d = true
    · have hb : breakOnChar p (d :: ds) = ([], some (d, ds)) := by
        simp [breakOnChar, hd]
      rw [hb] at h ⊢
      obtain ⟨rfl, rfl⟩ : d = c ∧ ds = rest := by simpa using h
      exact ⟨hd, by simp⟩
    · have hb : breakOnChar p (d :: ds) = (d :: (breakOnChar p ds).1, (breakOnChar p ds).2) := by
        simp [breakOnChar, hd]
      rw [hb] at h ⊢
      obtain ⟨hp, hs⟩ := ih h
      refine ⟨hp, ?_⟩
      simp only [List.cons_append]
      rw [← hs]

/-- Every accepted mantissa is non-empty and scalar. -/
theorem parseMantissa_chars {m : Str} {q : ℚ} {b : Bool}
    (h : parseMantissa m = some (q, b)) : m.all scalarChar = true ∧ m ≠ [] := by
  simp only [parseMantissa] at h
  split at h
  next hbd =>
    split at h
    next hdec =>
      obtain ⟨hne, hdig⟩ := decimalStr_parts hdec
      refine ⟨?_, hne⟩
      rw [List.all_eq_true]
      exact fun c hc => scalarChar_of_digit ((List.all_eq_true.mp hdig) c hc)
    next => exact absurd h (by simp)
  next pr hbd =>
    split at h
    next hcond =>
      obtain ⟨hdot, hm⟩ := breakOnChar_some (s := m) (by rw [hbd])
      obtain ⟨h12, -⟩ := and_true_split hcond
      obtain ⟨h1, h2⟩ := and_true_split h12
      constructor
      · rw [List.all_eq_true]
        intro c hc
        rw [hm] at hc
        rcases List.mem_append.mp hc with hin | hin2
        · exact scalarChar_of_digit ((List.all_eq_true.mp h1) c hin)
        · rcases List.mem_cons.mp hin2 with rfl | h3
          · apply scalarChar_of_toNat
            simp only [dotChar, decide_eq_true_eq] at hdot
            omega
          · exact scalarChar_of_digit ((List.all_eq_true.mp h2) c h3)
      · rw [hm]
        simp
    next => exact absurd h (by simp)

/-- A signed digit string (an exponent) is all scalar characters. -/
theorem signedDigits_chars {ex : Str} (h : isDecimalStr (stripSign ex).2 = true) :
    ex.all scalarChar = true := by
  have hall : (stripSign ex).2.all scalarChar = true := by
    simp only [isDecimalStr, Bool.and_eq_true] at h
    rw [List.all_eq_true]
    exact fun c hc => scalarChar_of_digit ((List.all_eq_true.mp h.2) c hc)
  rcases stripSign_cases ex with he | ⟨c, hc, he⟩
  · rw [he]; exact hall
  · rw [he]
    simp only [List.all_cons, Bool.and_eq_true]
    refine ⟨?_, hall⟩
    rcases hc with rfl | rfl <;> decide

/-- Every accepted unsigned float literal is non-empty and scalar. -/
theorem parseFloatMag_chars {u : Str} {q : ℚ} (h : parseFloatMag u = some q) :
    u.all scalarChar = true ∧ u ≠ [] := by
  simp only [parseFloatMag] at h
  split at h
  next hbr =>
    split at h
    next q0 hman => exact parseMantissa_chars hman
    next => exact absurd h (by simp)
  next pr hbr =>
    split at h
    next qf hman =>
      split at h
      next hexp =>
        obtain ⟨hech, hu⟩ := breakOnChar_some (s := u) (by rw [hbr])
        obtain ⟨hmant, -⟩ := parseMantissa_chars hman
        have hex : pr.2.all scalarChar = true := signedDigits_chars hexp
        constructor
        · rw [List.all_eq_true]
          intro c hc
          rw [hu] at hc
          rcases List.mem_append.mp hc with hin | hin2
          · exact (List.all_eq_true.mp hmant) c hin
          · rcases List.mem_cons.mp hin2 with rfl | h3
            · apply scalarChar_of_toNat
              simp only [expChar, Bool.or_eq_true, decide_eq_true_eq] at hech
              omega
            · exact (List.all_eq_true.mp hex) c h3
        · rw [hu]
          simp
      next => exact absurd h (by simp)
    next => exact absurd h (by simp)

/-- Every accepted signed float literal is non-empty and scalar. -/
theorem floatLit_chars {t : Str} {q : ℚ} (h : parseFloatLit t = some q) :
    t.all scalarChar = true ∧ t ≠ [] := by
  simp only [parseFloatLit] at h
  obtain ⟨q0, hq0⟩ : ∃ q0, parseFloatMag (stripSign t).2 = some q0 := by
    split at h
    next q0 hq0 => exact ⟨q0, hq0⟩
    next => exact absurd h (by simp)
  obtain ⟨hall, hne⟩ := parseFloatMag_chars hq0
  rcases stripSign_cases t with he | ⟨c, hc, he⟩
  · rw [he]
    exact ⟨hall, hne⟩
  · rw [he]
    simp only [List.all_cons, Bool.and_eq_true, ne_eq, reduceCtorEq, not_false_iff]
    refine ⟨⟨?_, hall⟩, by simp⟩
    rcases hc with rfl | rfl <;> decide

/-- Skipping whitespace stops at a non-whitespace head. -/
theorem skipWs_cons_of_not_space {c : Char} (cs : Str) (h : pyIsSpace c = false) :
    skipWs (c :: cs) = c :: cs := by
  simp [skipWs, List.dropWhile_cons, h]

/-- A takeWhile whose predicate holds everywhere keeps the whole list. -/
theorem takeWhile_of_all {p : Char → Bool} :
    ∀ {l : Str}, l.all p = true → l.takeWhile p = l := by
  intro l h
  induction l with
  | nil => rfl
  | cons c cs ih =>
    simp only [List.all_cons, Bool.and_eq_true] at h
    simp [List.takeWhile_cons, h.1, ih h.2]

/-- With non-whitespace at its head, the literal parser dispatches on
that head character. -/
theorem parseLit_cons (fuel : Nat) (c : Char) (rest : Str) (hcw : pyIsSpace c = false) :
    parseLit (fuel + 1) (c :: rest) = parseLitHead fuel c rest := by
  rw [parseLit.eq_def]
  show (match skipWs (c :: rest) with
        | [] => none
        | c2 :: rest2 => parseLitHead fuel c2 rest2) = parseLitHead fuel c rest
  rw [skipWs_cons_of_not_space rest hcw]

/-- On a non-empty input of scalar-token characters the literal parser
takes its bare-scalar branch: the whole input is one token and the
result is whatever the scalar evaluator gives. -/
theorem parseLit_scalar (fuel : Nat) (t : Str) (hall : t.all scalarChar = true)
    (hne : t ≠ []) :
    parseLit (fuel + 1) t =
      match scalarFromToken t with
      | some v => some (v, ([] : Str))
      | none => none := by
  cases t with
  | nil => exact absurd rfl hne
  | cons c rest =>
    have hc : scalarChar c = true := (List.all_eq_true.mp hall) c (by simp)
    have hcw : pyIsSpace c = false := by
      have := hc
      simp only [scalarChar, Bool.and_eq_true, Bool.not_eq_true'] at this
      exact this.1
    have hns : ∀ d : Char, scalarChar d = false → c ≠ d :=
      fun d hd e => by rw [e, hd] at hc; exact Bool.noConfusion hc
    have h1 : ¬(c = '[') := hns '[' (by decide)
    have h2 : ¬(c = '(') := hns '(' (by decide)
    have h3 : ¬(c = '\x7b') := hns '\x7b' (by decide)
    have h4 : ¬(c = '\x27') := hns '\x27' (by decide)
    have h5 : ¬(c = '"') := hns '"' (by decide)
    rw [parseLit_cons fuel c rest hcw, parseLitHead.eq_def]
    cases hsf : scalarFromToken (c :: rest) with
    | none =>
      simp [h1, h2, h3, h4, h5, takeWhile_of_all hall, hsf]
    | some v =>
      simp [h1, h2, h3, h4, h5, takeWhile_of_all hall, List.drop_length, hsf]

/-- On a non-empty scalar-character input the whole-string literal
parser agrees with the scalar evaluator. -/
theorem parsePyLiteral_scalar (t : Str) (hall : t.all scalarChar = true)
    (hne : t ≠ []) : parsePyLiteral t = scalarFromToken t := by
  unfold parsePyLiteral
  rw [parseLit_scalar t.length t hall hne]
  cases hsf : scalarFromToken t <;> simp [hsf, skipWs]

/-- ast.literal_eval evaluates an accepted signed integer literal to the
corresponding integer. -/
theorem literal_eval_int {t : Str} {n : Int} (h : parseIntLit t = some n) :
    literal_eval t = .ok (.intVal n) := by
  obtain ⟨hall, hne⟩ := intLit_chars h
  have hT : t ≠ chars "True" := by
    intro e
    rw [e, show parseIntLit (chars "True") = none from rfl] at h
    exact Option.noConfusion h
  have hF : t ≠ chars "False" := by
    intro e
    rw [e, show parseIntLit (chars "False") = none from rfl] at h
    exact Option.noConfusion h
  have hN : t ≠ chars "None" := by
    intro e
    rw [e, show parseIntLit (chars "None") = none from rfl] at h
    exact Option.noConfusion h
  have hsf : scalarFromToken t = some (.intVal n) := by
    unfold scalarFromToken
    rw [if_neg hT, if_neg hF, if_neg hN, h]
  unfold literal_eval
  rw [parsePyLiteral_scalar t hall hne, hsf]

/-- ast.literal_eval evaluates an accepted signed float literal that is
not an integer literal to the corresponding rational. -/
theorem literal_eval_float {t : Str} {q : ℚ} (hni : parseIntLit t = none)
    (h : parseFloatLit t = some q) : literal_eval t = .ok (.floatVal q) := by
  obtain ⟨hall, hne⟩ := floatLit_chars h
  have hT : t ≠ chars "True" := by
    intro e
    rw [e, show parseFloatLit (chars "True") = none from rfl] at h
    exact Option.noConfusion h
  have hF : t ≠ chars "False" := by
    intro e
    rw [e, show parseFloatLit (chars "False") = none from rfl] at h
    exact Option.noConfusion h
  have hN : t ≠ chars "None" := by
    intro e
    rw [e, show parseFloatLit (chars "None") = none from rfl] at h
    exact Option.noConfusion h
  have hsf : scalarFromToken t = some (.floatVal q) := by
    unfold scalarFromToken
    rw [if_neg hT, if_neg hF, if_neg hN, hni, h]
  unfold literal_eval
  rw [parsePyLiteral_scalar t hall hne, hsf]

/-- C2 counterexample: on a comma-free string that is not a Python
literal at all, parse_value calls ast.literal_eval with no guard and no
exception translation, so the failure is a raw evaluation error that is
not a member of the ParseError family and carries no line number, against
the claim that the failure is an InvalidLiteral error of the
(line_number, message) family. -/
theorem spec_c2_counterexample :
    parse_value (chars "abc") 7 = .error .literalEvalError ∧
    Err.isParseFamily .literalEvalError = false := by
  have h1 : literal_eval (chars "abc") = .error .literalEvalError := by
    unfold literal_eval
    rw [parsePyLiteral_scalar (chars "abc") (by decide) (by decide)]
    rfl
  refine ⟨?_, rfl⟩
  unfold parse_value
  rw [show containsSub [','] (chars "abc") = false from by decide]
  simp only [Bool.false_eq_true, if_false]
  rw [show pyStrip (chars "abc") = chars "abc" from rfl, h1]
  rfl

/-- C2 (amended): for every comma-free value string, parse_value
evaluates the whole trimmed string as one Python literal and returns a
one-element tuple of the result (in particular the value of an integer
or float literal, but equally any other literal such as a quoted string
or a container); only when the trimmed string is not a valid Python
literal does the call fail, and that failure is the raw evaluation
error, which lies outside the parse-error family and carries no line
number. -/
theorem spec_c2 (s : Str) (ln : Nat) (h : containsSub [','] s = false) :
    (∀ n : Int, parseIntLit (pyStrip s) = some n →
      parse_value s ln = .ok [.intVal n]) ∧
    (∀ q : ℚ, parseIntLit (pyStrip s) = none → parseFloatLit (pyStrip s) = some q →
      parse_value s ln = .ok [.floatVal q]) ∧
    (∀ v : PyVal, literal_eval (pyStrip s) = .ok v → parse_value s ln = .ok [v]) ∧
    (∀ e : Err, literal_eval (pyStrip s) = .error e →
      parse_value s ln = .error e ∧ e = .literalEvalError ∧
      Err.isParseFamily e = false) := by
  unfold parse_value
  rw [h]
  simp only [Bool.false_eq_true, if_false]
  refine ⟨?_, ?_, ?_, ?_⟩
  · intro n hn
    rw [literal_eval_int hn]
    rfl
  · intro q h1 h2
    rw [literal_eval_float h1 h2]
    rfl
  · intro v hv
    rw [hv]
    rfl
  · intro e he
    have hE : e = .literalEvalError := by
      unfold literal_eval at he
      cases hp : parsePyLiteral (pyStrip s) <;> rw [hp] at he
      · exact (Except.error.inj he).symm
      · exact absurd he (by simp)
    subst hE
    exact ⟨by rw [he]; rfl, rfl, rfl⟩

/-- C2 witness: instantiating the amended theorem at the comma-free
numeric string 7 on line 3. -/
theorem spec_c2_witness :
    containsSub [','] (chars "7") = false ∧
    parse_value (chars "7") 3 = .ok [.intVal 7] := by
  refine ⟨by decide, ?_⟩
  exact (spec_c2 (chars "7") 3 (by decide)).1 7 (by decide)

/-! ## C3: trailing multiplier in the Symbol Expander -/

/-- C3 (code bug): on a token stream ending in a bare decimal token the
source intends to raise the Invalid multiplier ParseError (the message
exists in an except branch written for exactly this situation), but that
branch catches ValueError while next() on the exhausted iterator raises
StopIteration, so the generator escapes with an error outside the
ParseError family and without the line number; the multiplier itself can
never fail int() once isdecimal() holds, leaving the handler unreachable
on that path too.  This theorem evaluates the model at the failing input
from the claim, the token stream of the expression A 2. -/
theorem spec_c3_code_eval :
    sort_out 1 (pySplitWs (chars "A 2")) = .error .stopIteration ∧
    Err.isParseFamily .stopIteration = false := by decide

/-! ## C4: the empty-side check of reaction parsing -/

/-- C4 counterexample: the claim states the EmptyReactionSide failure
fires exactly when both sides are empty after multiplier expansion, but
the source makes the emptiness check on the whitespace-split halves
before expansion; the name 0 A <=> 0 B has non-empty halves, passes the
check, and parses successfully into an identifier whose two symbol
tuples are both empty after expansion. -/
theorem spec_c4_counterexample :
    parse_identifier .PARAM_DOUBLE 1 (chars "0 A <=> 0 B") =
      .ok ⟨.PARAM_DOUBLE, [], some []⟩ := by decide

/-- The only failures the Symbol Expander can produce are the escaped
StopIteration of a trailing multiplier and the invalid-symbol ParseError;
in particular it never raises the empty-declaration message. -/
theorem sort_out_error_shape (ln : Nat) (ts : List Str) (e : Err)
    (h : sort_out ln ts = .error e) :
    e = .stopIteration ∨ ∃ s, e = .parseError ln (.invalidSymbol s) := by
  induction ts using sort_out.induct ln generalizing e with
  | case1 =>
    rw [sort_out.eq_def] at h
    simp at h
  | case2 sym hdec =>
    rw [sort_out.eq_def] at h
    simp [hdec] at h
    exact Or.inl h.symm
  | case3 sym hdec nxt rest2 ih =>
    rw [sort_out.eq_def] at h
    simp [hdec] at h
    cases hs : sort_out ln rest2 with
    | ok v => rw [hs] at h; simp [Except.map] at h
    | error e2 =>
      rw [hs] at h
      simp [Except.map] at h
      exact h ▸ ih e2 hs
  | case4 sym rest hdec halp ih =>
    rw [sort_out.eq_def] at h
    simp [hdec, halp] at h
    cases hs : sort_out ln rest with
    | ok v => rw [hs] at h; simp [Except.map] at h
    | error e2 =>
      rw [hs] at h
      simp [Except.map] at h
      exact h ▸ ih e2 hs
  | case5 sym rest hdec halp hop ih =>
    rw [sort_out.eq_def] at h
    simp [hdec, halp, hop] at h
    exact ih e h
  | case6 sym rest hdec halp hop =>
    rw [sort_out.eq_def] at h
    simp [hdec, halp, hop] at h
    exact Or.inr ⟨sym, h.symm⟩

/-- C4 (amended): for every reaction-kind statement name, the parser
splits the name on the kind operator and fails with the empty-side parse
error exactly when both halves contain no whitespace-separated tokens, a
check the source makes before multiplier expansion. -/
theorem spec_c4 (t : IdentifierType) (ln : Nat) (raw : Str)
    (ht : t = .PARAM_DOUBLE ∨ t = .PARAM_SINGLE_R ∨ t = .PARAM_SINGLE_L) :
    parse_identifier t ln raw = .error (.parseError ln .emptySymbolDecl) ↔
      (pySplitWs ((pyPartition (reactionOp t) raw).getD (raw, [])).1 = [] ∧
       pySplitWs ((pyPartition (reactionOp t) raw).getD (raw, [])).2 = []) := by
  have main : ∀ u : IdentifierType, (∀ lno raw2, parse_identifier u lno raw2 =
      (let parts := (pyPartition (reactionOp u) raw2).getD (raw2, [])
       let left_toks := pySplitWs parts.1
       let right_toks := pySplitWs parts.2
       if left_toks.length = right_toks.length ∧ left_toks.length = 0 then
         .error (.parseError lno .emptySymbolDecl)
       else do
         let l ← sort_out lno left_toks
         let r ← sort_out lno right_toks
         .ok ⟨u, l, some r⟩)) →
      (parse_identifier u ln raw = .error (.parseError ln .emptySymbolDecl) ↔
        (pySplitWs ((pyPartition (reactionOp u) raw).getD (raw, [])).1 = [] ∧
         pySplitWs ((pyPartition (reactionOp u) raw).getD (raw, [])).2 = [])) := by
    intro u hu
    rw [hu ln raw]
    set L := pySplitWs ((pyPartition (reactionOp u) raw).getD (raw, [])).1 with hL
    set R := pySplitWs ((pyPartition (reactionOp u) raw).getD (raw, [])).2 with hR
    simp only []
    by_cases hc : L.length = R.length ∧ L.length = 0
    · rw [if_pos hc]
      simp [List.length_eq_zero.mp hc.2, List.length_eq_zero.mp (hc.1 ▸ hc.2)]
    · rw [if_neg hc]
      constructor
      · intro hdo
        exfalso
        cases hsl : sort_out ln L with
        | error e =>
          rw [hsl] at hdo
          simp [bind, Except.bind] at hdo
          rcases sort_out_error_shape ln L e hsl with rfl | ⟨s, rfl⟩ <;> simp_all
        | ok l =>
          cases hsr : sort_out ln R with
          | error e =>
            rw [hsl, hsr] at hdo
            simp [bind, Except.bind] at hdo
            rcases sort_out_error_shape ln R e hsr with rfl | ⟨s, rfl⟩ <;> simp_all
          | ok r =>
            rw [hsl, hsr] at hdo
            simp [bind, Except.bind] at hdo
      · rintro ⟨h1, h2⟩
        exact absurd ⟨by rw [h1, h2], by rw [h1]; rfl⟩ hc
  rcases ht with rfl | rfl | rfl <;>
    exact main _ (fun lno raw2 => by rw [parse_identifier.eq_def])

/-- C4 witness: the name consisting of the bare operator has two empty
halves and raises the empty-side error. -/
theorem spec_c4_witness :
    (IdentifierType.PARAM_DOUBLE = .PARAM_DOUBLE ∨
      IdentifierType.PARAM_DOUBLE = .PARAM_SINGLE_R ∨
      IdentifierType.PARAM_DOUBLE = .PARAM_SINGLE_L) ∧
    (parse_identifier .PARAM_DOUBLE 1 (chars "<=>") =
        .error (.parseError 1 .emptySymbolDecl) ↔
      (pySplitWs ((pyPartition (reactionOp .PARAM_DOUBLE) (chars "<=>")).getD
          (chars "<=>", [])).1 = [] ∧
       pySplitWs ((pyPartition (reactionOp .PARAM_DOUBLE) (chars "<=>")).getD
          (chars "<=>", [])).2 = [])) :=
  ⟨Or.inl rfl, spec_c4 .PARAM_DOUBLE 1 (chars "<=>") (Or.inl rfl)⟩

/-! ## C5: direction aliasing of the canonical reaction string -/

/-- C5: parsing A <- B yields the reverse-alias identifier and parsing
B -> A yields the forward identifier, both stringify to the same
canonical string B -> A, and aggregating the two statements makes the
second overwrite the first under that single shared params key. -/
theorem spec_c5 :
    parse_name (chars "A <- B") 1 =
      .ok ⟨.PARAM_SINGLE_L, [chars "A"], some [chars "B"]⟩ ∧
    parse_name (chars "B -> A") 2 =
      .ok ⟨.PARAM_SINGLE_R, [chars "B"], some [chars "A"]⟩ ∧
    stringify_reaction ⟨.PARAM_SINGLE_L, [chars "A"], some [chars "B"]⟩ = chars "B -> A" ∧
    stringify_reaction ⟨.PARAM_SINGLE_R, [chars "B"], some [chars "A"]⟩ = chars "B -> A" ∧
    get_dicts [(1, ⟨.PARAM_SINGLE_L, [chars "A"], some [chars "B"]⟩, [.intVal 1]),
               (2, ⟨.PARAM_SINGLE_R, [chars "B"], some [chars "A"]⟩, [.intVal 2])] =
      .ok ⟨[], [(chars "B -> A", .scalar (.intVal 2))], []⟩ :=
  ⟨rfl, rfl, rfl, rfl, rfl⟩

/-! ## C6: order-independent drain merge -/

/-- C6: folding a drain outflow for species X with value a and a drain
inflow for X with value b produces, in either order, the single drain
entry for X holding the out factor a and the in constant b. -/
theorem spec_c6 (X : Str) (a b : PyVal) (l1 l2 : Nat) :
    get_dicts [(l1, ⟨.DRAIN_OUT, [X], none⟩, [a]), (l2, ⟨.DRAIN_IN, [X], none⟩, [b])] =
      .ok ⟨[], [], [(X, ⟨some a, some b⟩)]⟩ ∧
    get_dicts [(l2, ⟨.DRAIN_IN, [X], none⟩, [b]), (l1, ⟨.DRAIN_OUT, [X], none⟩, [a])] =
      .ok ⟨[], [], [(X, ⟨some a, some b⟩)]⟩ := by
  constructor <;>
    simp [get_dicts, get_dicts_from, get_dicts_step, dictSet, dictGet, bind, Except.bind]

/-! ## C9: the fold step only touches the mapping of its kind -/

/-- C9: whenever one iteration of the get_dicts loop accepts a statement,
it updates only the mapping selected by the statement kind: initial for
an initial condition, params for the three reaction kinds, drain for the
two drain kinds; the other two mappings are returned exactly unchanged. -/
theorem spec_c9 (ln : Nat) (ident : Identifier) (value : List PyVal)
    (r r' : ParsedDictResults) (h : get_dicts_step ln ident value r = .ok r') :
    (ident.type = .INITIAL_COND → r'.params = r.params ∧ r'.drain = r.drain) ∧
    ((ident.type = .PARAM_DOUBLE ∨ ident.type = .PARAM_SINGLE_R ∨
        ident.type = .PARAM_SINGLE_L) →
      r'.initial = r.initial ∧ r'.drain = r.drain) ∧
    ((ident.type = .DRAIN_OUT ∨ ident.type = .DRAIN_IN) →
      r'.initial = r.initial ∧ r'.params = r.params) := by
  obtain ⟨ty, ls, rs⟩ := ident
  cases ty <;>
    · simp only [get_dicts_step] at h
      repeat' split at h
      all_goals first
        | (obtain rfl := Except.ok.inj h; simp_all)
        | simp at h

/-- C9 witness: the step on a concrete initial-condition statement over
a non-empty accumulator rewrites only the initial mapping. -/
theorem spec_c9_witness :
    get_dicts_step 5 ⟨.INITIAL_COND, [chars "X"], none⟩ [.intVal 1]
        ⟨[], [], [(chars "Y", ⟨some (.intVal 2), none⟩)]⟩ =
      .ok ⟨[(chars "X", .intVal 1)], [], [(chars "Y", ⟨some (.intVal 2), none⟩)]⟩ ∧
    (⟨[(chars "X", .intVal 1)], [], [(chars "Y", ⟨some (.intVal 2), none⟩)]⟩ :
        ParsedDictResults).params =
      (⟨[], [], [(chars "Y", ⟨some (.intVal 2), none⟩)]⟩ : ParsedDictResults).params ∧
    (⟨[(chars "X", .intVal 1)], [], [(chars "Y", ⟨some (.intVal 2), none⟩)]⟩ :
        ParsedDictResults).drain =
      (⟨[], [], [(chars "Y", ⟨some (.intVal 2), none⟩)]⟩ : ParsedDictResults).drain := by
  refine ⟨rfl, ?_⟩
  exact (spec_c9 5 ⟨.INITIAL_COND, [chars "X"], none⟩ [.intVal 1]
    ⟨[], [], [(chars "Y", ⟨some (.intVal 2), none⟩)]⟩
    ⟨[(chars "X", .intVal 1)], [], [(chars "Y", ⟨some (.intVal 2), none⟩)]⟩
    (by rfl)).1 rfl

/-! ## C10: zero multipliers expand to nothing -/

/-- C10: a multiplier of zero is accepted by the Symbol Expander: the
token pair 0 s expands to no symbols for every following token s, and a
stream made of any number of zero-multiplier pairs expands to the empty
symbol sequence without error. -/
theorem spec_c10 (lineno : Nat) :
    (∀ s : Str, sort_out lineno [chars "0", s] = .ok []) ∧
    (∀ ts : List Str, sort_out lineno ((ts.map fun s => [chars "0", s]).flatten) = .ok []) := by
  have hdec : isDecimalStr ['0'] = true := by decide
  have hzero : digitsToNat ['0'] = 0 := by decide
  have hch : chars "0" = ['0'] := rfl
  have key : ∀ ts : List Str,
      sort_out lineno ((ts.map fun s => [chars "0", s]).flatten) = .ok [] := by
    intro ts
    induction ts with
    | nil => rfl
    | cons s rest ih =>
      simp only [hch] at ih ⊢
      simp only [List.map_cons, List.flatten_cons, List.cons_append]
      rw [sort_out.eq_def]
      simp [hdec, hzero, ih, Except.map]
  refine ⟨fun s => ?_, key⟩
  simpa using key [s]

/-! ## C8: the Symbol Expander on valid expression streams -/

/-- C8: over every valid expression token stream the Symbol Expander is
deterministic (it is a function of the stream) and order-preserving: each
multiplier pair contributes its symbol repeated count-many times, each
bare alphabetic token contributes itself once, each operator token
contributes nothing, and contributions appear in stream order. -/
theorem spec_c8 (ln : Nat) (items : List TokItem) (h : ∀ it ∈ items, it.wf) :
    sort_out ln ((items.map TokItem.toTokens).flatten) =
      .ok ((items.map TokItem.expandSpec).flatten) := by
  induction items with
  | nil => rfl
  | cons it rest ih =>
    have hit := h it (by simp)
    have hrest := ih fun x hx => h x (by simp [hx])
    cases it with
    | mult c s =>
      have hc : isDecimalStr c = true := hit.1
      simp only [TokItem.toTokens, TokItem.expandSpec, List.map_cons, List.flatten_cons,
        List.cons_append]
      rw [sort_out.eq_def]
      simp [hc, hrest, Except.map]
    | plain s =>
      have hs : isAlphaStr s = true := hit
      simp only [TokItem.toTokens, TokItem.expandSpec, List.map_cons, List.flatten_cons,
        List.cons_append, List.nil_append, List.singleton_append]
      rw [sort_out.eq_def]
      simp [alpha_not_decimal hs, hs, hrest, Except.map]
    | oper o =>
      have hop : o = ['+'] ∨ o = chars "->" ∨ o = chars "<=>" ∨ o = chars "<-" := hit
      simp only [TokItem.toTokens, TokItem.expandSpec, List.map_cons, List.flatten_cons,
        List.cons_append, List.nil_append, List.singleton_append]
      rcases hop with rfl | rfl | rfl | rfl <;>
        · rw [sort_out.eq_def]
          simp [hrest, Except.map, isDecimalStr, isAlphaStr, pyIsDigit, pyIsAlphaChar, chars]

/-- C8 witness: the expression 2 A B splits into the stream of a
multiplier pair and a bare symbol, and expands to the sequence A, A, B. -/
theorem spec_c8_witness :
    pySplitWs (chars "2 A B") = [chars "2", chars "A", chars "B"] ∧
    sort_out 1 [chars "2", chars "A", chars "B"] =
      .ok [chars "A", chars "A", chars "B"] := by
  refine ⟨by decide, ?_⟩
  simpa using
    spec_c8 1 [.mult (chars "2") (chars "A"), .plain (chars "B")] (by decide)

/-! ## C7: round-tripping the canonical reaction string

The chain of lemmas below establishes what whitespace splitting, substring
partitioning and the Symbol Expander do to a rendered reaction string. -/

/-- Unfolding equation of the split worker on the empty string. -/
theorem splitWsAux_nil (acc : Str) :
    splitWsAux [] acc = if acc.isEmpty then [] else [acc.reverse] := rfl

/-- Unfolding equation of the split worker on a cons. -/
theorem splitWsAux_cons (c : Char) (rest acc : Str) :
    splitWsAux (c :: rest) acc =
      if pyIsSpace c then
        if acc.isEmpty then splitWsAux rest [] else acc.reverse :: splitWsAux rest []
      else splitWsAux rest (c :: acc) := rfl

/-- Unfolding equation of partition on a cons. -/
theorem pyPartition_cons (sep : Str) (c : Char) (rest : Str) :
    pyPartition sep (c :: rest) =
      if sep.isPrefixOf (c :: rest) then some ([], (c :: rest).drop sep.length)
      else (pyPartition sep rest).map fun p => (c :: p.1, p.2) := rfl

/-- Unfolding equation of the prefix test on two conses. -/
theorem isPrefixOf_cons_cons (a b : Char) (as bs : Str) :
    List.isPrefixOf (a :: as) (b :: bs) = (a == b && List.isPrefixOf as bs) := rfl

/-- Unfolding equation of the plus join on two or more symbols. -/
theorem joinPlus_cons_cons (x y : Str) (rest : List Str) :
    joinPlus (x :: y :: rest) = x ++ ' ' :: '+' :: ' ' :: joinPlus (y :: rest) := rfl

/-- The split worker swallows a whole block of non-whitespace input into
its accumulator. -/
theorem splitWsAux_append_nospace (x : Str) (hx : ∀ c ∈ x, pyIsSpace c = false) :
    ∀ s acc : Str, splitWsAux (x ++ s) acc = splitWsAux s (x.reverse ++ acc) := by
  induction x with
  | nil => intro s acc; simp
  | cons c x ih =>
    intro s acc
    have hc : pyIsSpace c = false := hx c (by simp)
    rw [List.cons_append, splitWsAux_cons, hc]
    simp only [Bool.false_eq_true, if_false]
    rw [ih (fun d hd => hx d (by simp [hd])) s (c :: acc)]
    simp

/-- The split worker on a leading space flushes its accumulator. -/
theorem splitWsAux_space_cons (s acc : Str) :
    splitWsAux (' ' :: s) acc =
      if acc.isEmpty then splitWsAux s [] else acc.reverse :: splitWsAux s [] := by
  rw [splitWsAux_cons, (by decide : pyIsSpace ' ' = true)]
  simp

/-- A trailing space does not change the splitting of a string. -/
theorem splitWsAux_trailing (s : Str) :
    ∀ acc : Str, splitWsAux (s ++ [' ']) acc = splitWsAux s acc := by
  induction s with
  | nil =>
    intro acc
    rw [List.nil_append, splitWsAux_space_cons, splitWsAux_nil]
    cases acc <;> simp [splitWsAux_nil]
  | cons c s ih =>
    intro acc
    rw [List.cons_append, splitWsAux_cons, splitWsAux_cons]
    by_cases hc : pyIsSpace c = true <;> simp [hc, ih]

/-- Whitespace splitting ignores a leading space. -/
theorem splitWs_leading (s : Str) : pySplitWs (' ' :: s) = pySplitWs s := by
  rw [pySplitWs, pySplitWs, splitWsAux_space_cons]
  simp

/-- Whitespace splitting ignores a trailing space. -/
theorem splitWs_trailing (s : Str) : pySplitWs (s ++ [' ']) = pySplitWs s :=
  splitWsAux_trailing s []

/-- Whitespace splitting of one non-empty whitespace-free token yields
exactly that token. -/
theorem splitWs_token (x : Str) (hne : x ≠ []) (hx : ∀ c ∈ x, pyIsSpace c = false) :
    pySplitWs x = [x] := by
  have h := splitWsAux_append_nospace x hx [] []
  rw [List.append_nil] at h
  rw [pySplitWs, h, splitWsAux_nil]
  have : (x.reverse ++ ([] : Str)).isEmpty = false := by
    simp [List.isEmpty_iff, hne]
  rw [this]
  simp

/-- Every character of a plus join of alphabetic symbols is alphabetic, a
space or a plus sign. -/
theorem joinPlus_chars : ∀ (syms : List Str), (∀ s ∈ syms, isAlphaStr s = true) →
    ∀ c ∈ joinPlus syms, pyIsAlphaChar c = true ∨ c = ' ' ∨ c = '+' := by
  intro syms
  induction syms with
  | nil => intro _ c hc; simp [joinPlus] at hc
  | cons x rest ih =>
    intro h c hc
    cases rest with
    | nil =>
      exact Or.inl (alphaStr_chars (h x (by simp)) c (by simpa [joinPlus] using hc))
    | cons y t =>
      rw [joinPlus_cons_cons] at hc
      rcases List.mem_append.mp hc with hx | hmid
      · exact Or.inl (alphaStr_chars (h x (by simp)) c hx)
      · simp only [List.mem_cons] at hmid
        rcases hmid with rfl | rfl | rfl | htail
        · exact Or.inr (Or.inl rfl)
        · exact Or.inr (Or.inr rfl)
        · exact Or.inr (Or.inl rfl)
        · exact ih (fun s hs => h s (by simp [hs])) c htail

/-- Whitespace splitting a plus join of alphabetic symbols yields the
symbols with a plus token between each adjacent pair. -/
theorem splitWs_joinPlus : ∀ (syms : List Str), (∀ s ∈ syms, isAlphaStr s = true) →
    pySplitWs (joinPlus syms) = intersperseP syms := by
  intro syms
  induction syms with
  | nil => intro _; rfl
  | cons x rest ih =>
    intro h
    have hx := h x (by simp)
    have hxs : ∀ c ∈ x, pyIsSpace c = false :=
      fun c hc => alphaChar_not_space (alphaStr_chars hx c hc)
    have hxne : x ≠ [] := alphaStr_ne_nil hx
    cases rest with
    | nil => exact splitWs_token x hxne hxs
    | cons y t =>
      have ihy := ih (fun s hs => h s (by simp [hs]))
      rw [joinPlus_cons_cons, pySplitWs, splitWsAux_append_nospace x hxs, splitWsAux_space_cons]
      have hne : (x.reverse ++ ([] : Str)).isEmpty = false := by
        simp [List.isEmpty_iff, hxne]
      rw [hne]
      simp only [Bool.false_eq_true, if_false, List.append_nil, List.reverse_reverse]
      rw [splitWsAux_cons, (by decide : pyIsSpace '+' = false)]
      simp only [Bool.false_eq_true, if_false]
      rw [splitWsAux_space_cons]
      simp only [List.isEmpty_cons, Bool.false_eq_true, if_false, List.reverse_cons,
        List.reverse_nil, List.nil_append]
      rw [show splitWsAux (joinPlus (y :: t)) [] = pySplitWs (joinPlus (y :: t)) from rfl, ihy]
      rfl

/-- The interspersed token stream is empty exactly for no symbols. -/
theorem intersperseP_eq_nil {syms : List Str} : intersperseP syms = [] ↔ syms = [] := by
  cases syms with
  | nil => simp [intersperseP]
  | cons x rest => cases rest <;> simp [intersperseP]

/-- Partition misses a separator whose first character never occurs. -/
theorem pyPartition_none {h0 : Char} (t : Str) :
    ∀ s : Str, (∀ c ∈ s, c ≠ h0) → pyPartition (h0 :: t) s = none := by
  intro s
  induction s with
  | nil => intro _; rfl
  | cons c rest ih =>
    intro h
    have hc : c ≠ h0 := h c (by simp)
    rw [pyPartition_cons, isPrefixOf_cons_cons]
    have hbeq : (h0 == c) = false := by
      simp only [beq_eq_false_iff_ne, ne_eq]
      exact fun e => hc e.symm
    rw [hbeq]
    simp [ih (fun d hd => h d (by simp [hd]))]

/-- Partition finds the separator exactly after a block free of its first
character. -/
theorem pyPartition_append {h0 : Char} (t : Str) :
    ∀ a b : Str, (∀ c ∈ a, c ≠ h0) →
      pyPartition (h0 :: t) (a ++ (h0 :: t) ++ b) = some (a, b) := by
  intro a
  induction a with
  | nil =>
    intro b _
    rw [List.nil_append]
    have hshape : (h0 :: t) ++ b = h0 :: (t ++ b) := rfl
    rw [hshape, pyPartition_cons]
    have hpre : List.isPrefixOf (h0 :: t) (h0 :: (t ++ b)) = true := by
      rw [← hshape]
      exact List.isPrefixOf_iff_prefix.mpr (List.prefix_append _ _)
    rw [hpre]
    simp only [if_true]
    rw [← hshape, List.drop_left]
  | cons c a ih =>
    intro b h
    have hc : c ≠ h0 := h c (by simp)
    rw [List.cons_append, List.cons_append, pyPartition_cons, isPrefixOf_cons_cons]
    have hbeq : (h0 == c) = false := by
      simp only [beq_eq_false_iff_ne, ne_eq]
      exact fun e => hc e.symm
    rw [hbeq]
    simp only [Bool.false_and, Bool.false_eq_true, if_false]
    rw [show (a ++ h0 :: t ++ b : Str) = a ++ (h0 :: t) ++ b from by simp [List.append_assoc]]
    rw [ih b (fun d hd => h d (by simp [hd]))]
    rfl

/-- The Symbol Expander maps the interspersed stream of alphabetic
symbols back to exactly those symbols: each symbol is yielded and each
plus token is skipped. -/
theorem sort_out_intersperseP (ln : Nat) : ∀ syms : List Str,
    (∀ s ∈ syms, isAlphaStr s = true) → sort_out ln (intersperseP syms) = .ok syms := by
  intro syms
  induction syms with
  | nil => intro _; rfl
  | cons x rest ih =>
    intro h
    have hx := h x (by simp)
    cases rest with
    | nil =>
      rw [show intersperseP [x] = [x] from rfl, sort_out.eq_def]
      simp [alpha_not_decimal hx, hx, sort_out, Except.map]
    | cons y t =>
      have ihy := ih (fun s hs => h s (by simp [hs]))
      rw [show intersperseP (x :: y :: t) = x :: ['+'] :: intersperseP (y :: t) from rfl]
      rw [sort_out.eq_def]
      simp only [alpha_not_decimal hx, hx, Bool.false_eq_true, if_false, if_true]
      rw [sort_out.eq_def]
      simp [ihy, Except.map, (by decide : isDecimalStr ['+'] = false),
        (by decide : isAlphaStr ['+'] = false)]

/-- A join of at least one symbol starts with the first symbol. -/
theorem joinPlus_head (x : Str) (rest : List Str) :
    ∃ tail, joinPlus (x :: rest) = x ++ tail := by
  cases rest with
  | nil => exact ⟨[], by simp [joinPlus]⟩
  | cons y t => exact ⟨_, joinPlus_cons_cons x y t⟩

/-- Re-parsing a rendered forward reaction string recovers its two sides:
the classifier picks the forward kind and the parser splits at the arrow
that the rendering inserted, because alphabetic symbols cannot contain a
dash or an angle bracket. -/
theorem parse_name_forward (A B : List Str) (ln : Nat)
    (hA : ∀ s ∈ A, isAlphaStr s = true) (hB : ∀ s ∈ B, isAlphaStr s = true)
    (hne : ¬(A = [] ∧ B = [])) :
    parse_name (joinPlus A ++ chars " -> " ++ joinPlus B) ln =
      .ok ⟨.PARAM_SINGLE_R, A, some B⟩ := by
  have hmid : chars " -> " = [' ', '-', '>', ' '] := rfl
  have hgoodA := joinPlus_chars A hA
  have hgoodB := joinPlus_chars B hB
  have hshape : joinPlus A ++ chars " -> " ++ joinPlus B =
      (joinPlus A ++ [' ']) ++ ('-' :: ['>']) ++ (' ' :: joinPlus B) := by
    rw [hmid]
    simp [List.append_assoc]
  have hAvoid : ∀ c ∈ joinPlus A ++ [' '], c ≠ '-' := by
    intro c hc
    rcases List.mem_append.mp hc with hin | hsp
    · rcases hgoodA c hin with hal | rfl | rfl
      · exact (alphaChar_ne hal).1
      · decide
      · decide
    · rcases List.mem_singleton.mp hsp with rfl
      decide
  have hpart : pyPartition ('-' :: ['>'])
        ((joinPlus A ++ [' ']) ++ ('-' :: ['>']) ++ (' ' :: joinPlus B)) =
      some (joinPlus A ++ [' '], ' ' :: joinPlus B) :=
    pyPartition_append _ _ _ hAvoid
  have hNoLt : ∀ c ∈ joinPlus A ++ chars " -> " ++ joinPlus B, c ≠ '<' := by
    intro c hc
    rcases List.mem_append.mp hc with h1 | h2
    · rcases List.mem_append.mp h1 with h1a | h1m
      · rcases hgoodA c h1a with hal | rfl | rfl
        · exact (alphaChar_ne hal).2.1
        · decide
        · decide
      · rw [hmid] at h1m
        simp only [List.mem_cons, List.not_mem_nil, or_false] at h1m
        rcases h1m with rfl | rfl | rfl | rfl <;> decide
    · rcases hgoodB c h2 with hal | rfl | rfl
      · exact (alphaChar_ne hal).2.1
      · decide
      · decide
  have hnoD : containsSub (chars "<=>") (joinPlus A ++ chars " -> " ++ joinPlus B) = false := by
    rw [containsSub, show chars "<=>" = '<' :: ['=', '>'] from rfl,
      pyPartition_none _ _ hNoLt]
    rfl
  have hhead : ∃ c rest0, joinPlus A ++ chars " -> " ++ joinPlus B = c :: rest0 ∧
      (pyIsAlphaChar c = true ∨ c = ' ') := by
    cases A with
    | nil =>
      refine ⟨' ', '-' :: '>' :: ' ' :: joinPlus B, ?_, Or.inr rfl⟩
      rw [hmid]
      simp [joinPlus]
    | cons x A2 =>
      obtain ⟨tail, htail⟩ := joinPlus_head x A2
      have hx := hA x (by simp)
      cases hcx : x with
      | nil => exact absurd hcx (alphaStr_ne_nil hx)
      | cons c x2 =>
        refine ⟨c, x2 ++ tail ++ chars " -> " ++ joinPlus B, ?_,
          Or.inl (alphaStr_chars hx c (by simp [hcx]))⟩
        rw [← hcx, htail, hcx]
        simp [List.append_assoc]
  have hsw1 : pyStartsWith (chars "->") (joinPlus A ++ chars " -> " ++ joinPlus B) = false := by
    obtain ⟨c, rest0, heq, hcase⟩ := hhead
    rw [heq, pyStartsWith, show chars "->" = '-' :: ['>'] from rfl, isPrefixOf_cons_cons]
    have hb : ('-' == c) = false := by
      rcases hcase with hal | rfl
      · simp only [beq_eq_false_iff_ne, ne_eq]
        exact fun e => (alphaChar_ne hal).1 e.symm
      · decide
    rw [hb]
    rfl
  have hsw2 : pyStartsWith (chars "<-") (joinPlus A ++ chars " -> " ++ joinPlus B) = false := by
    obtain ⟨c, rest0, heq, hcase⟩ := hhead
    rw [heq, pyStartsWith, show chars "<-" = '<' :: ['-'] from rfl, isPrefixOf_cons_cons]
    have hb : ('<' == c) = false := by
      rcases hcase with hal | rfl
      · simp only [beq_eq_false_iff_ne, ne_eq]
        exact fun e => (alphaChar_ne hal).2.1 e.symm
      · decide
    rw [hb]
    rfl
  have hcontArrow : containsSub (chars "->")
      (joinPlus A ++ chars " -> " ++ joinPlus B) = true := by
    rw [containsSub, show chars "->" = '-' :: ['>'] from rfl, hshape, hpart]
    rfl
  have hcls : get_identifier_type (joinPlus A ++ chars " -> " ++ joinPlus B) =
      .PARAM_SINGLE_R := by
    rw [get_identifier_type, hsw1, hsw2, hnoD, hcontArrow]
    simp
  have hpi : ∀ (lno : Nat) (raw2 : Str), parse_identifier .PARAM_SINGLE_R lno raw2 =
      (if (pySplitWs ((pyPartition ('-' :: ['>']) raw2).getD (raw2, [])).1).length =
            (pySplitWs ((pyPartition ('-' :: ['>']) raw2).getD (raw2, [])).2).length ∧
          (pySplitWs ((pyPartition ('-' :: ['>']) raw2).getD (raw2, [])).1).length = 0 then
        .error (.parseError lno .emptySymbolDecl)
      else do
        let l ← sort_out lno (pySplitWs ((pyPartition ('-' :: ['>']) raw2).getD (raw2, [])).1)
        let r ← sort_out lno (pySplitWs ((pyPartition ('-' :: ['>']) raw2).getD (raw2, [])).2)
        .ok ⟨.PARAM_SINGLE_R, l, some r⟩) :=
    fun lno raw2 => by rw [parse_identifier.eq_def]; rfl
  rw [parse_name, hcls, hpi, hshape, hpart]
  simp only [Option.getD_some]
  have hLt : pySplitWs (joinPlus A ++ [' ']) = intersperseP A := by
    rw [splitWs_trailing]
    exact splitWs_joinPlus A hA
  have hRt : pySplitWs (' ' :: joinPlus B) = intersperseP B := by
    rw [splitWs_leading]
    exact splitWs_joinPlus B hB
  rw [hLt, hRt]
  have hguard : ¬((intersperseP A).length = (intersperseP B).length ∧
      (intersperseP A).length = 0) := by
    rintro ⟨h1, h2⟩
    exact hne ⟨intersperseP_eq_nil.mp (List.length_eq_zero.mp h2),
      intersperseP_eq_nil.mp (List.length_eq_zero.mp (h1 ▸ h2))⟩
  rw [if_neg hguard, sort_out_intersperseP ln A hA, sort_out_intersperseP ln B hB]
  rfl

/-- Re-parsing a rendered reversible reaction string recovers its two
sides under the double-arrow operator. -/
theorem parse_name_double (A B : List Str) (ln : Nat)
    (hA : ∀ s ∈ A, isAlphaStr s = true) (hB : ∀ s ∈ B, isAlphaStr s = true)
    (hne : ¬(A = [] ∧ B = [])) :
    parse_name (joinPlus A ++ chars " <=> " ++ joinPlus B) ln =
      .ok ⟨.PARAM_DOUBLE, A, some B⟩ := by
  have hmid : chars " <=> " = [' ', '<', '=', '>', ' '] := rfl
  have hgoodA := joinPlus_chars A hA
  have hgoodB := joinPlus_chars B hB
  have hshape : joinPlus A ++ chars " <=> " ++ joinPlus B =
      (joinPlus A ++ [' ']) ++ ('<' :: ['=', '>']) ++ (' ' :: joinPlus B) := by
    rw [hmid]
    simp [List.append_assoc]
  have hAvoid : ∀ c ∈ joinPlus A ++ [' '], c ≠ '<' := by
    intro c hc
    rcases List.mem_append.mp hc with hin | hsp
    · rcases hgoodA c hin with hal | rfl | rfl
      · exact (alphaChar_ne hal).2.1
      · decide
      · decide
    · rcases List.mem_singleton.mp hsp with rfl
      decide
  have hpart : pyPartition ('<' :: ['=', '>'])
        ((joinPlus A ++ [' ']) ++ ('<' :: ['=', '>']) ++ (' ' :: joinPlus B)) =
      some (joinPlus A ++ [' '], ' ' :: joinPlus B) :=
    pyPartition_append _ _ _ hAvoid
  have hhead : ∃ c rest0, joinPlus A ++ chars " <=> " ++ joinPlus B = c :: rest0 ∧
      (pyIsAlphaChar c = true ∨ c = ' ') := by
    cases A with
    | nil =>
      refine ⟨' ', '<' :: '=' :: '>' :: ' ' :: joinPlus B, ?_, Or.inr rfl⟩
      rw [hmid]
      simp [joinPlus]
    | cons x A2 =>
      obtain ⟨tail, htail⟩ := joinPlus_head x A2
      have hx := hA x (by simp)
      cases hcx : x with
      | nil => exact absurd hcx (alphaStr_ne_nil hx)
      | cons c x2 =>
        refine ⟨c, x2 ++ tail ++ chars " <=> " ++ joinPlus B, ?_,
          Or.inl (alphaStr_chars hx c (by simp [hcx]))⟩
        rw [← hcx, htail, hcx]
        simp [List.append_assoc]
  have hsw1 : pyStartsWith (chars "->") (joinPlus A ++ chars " <=> " ++ joinPlus B) = false := by
    obtain ⟨c, rest0, heq, hcase⟩ := hhead
    rw [heq, pyStartsWith, show chars "->" = '-' :: ['>'] from rfl, isPrefixOf_cons_cons]
    have hb : ('-' == c) = false := by
      rcases hcase with hal | rfl
      · simp only [beq_eq_false_iff_ne, ne_eq]
        exact fun e => (alphaChar_ne hal).1 e.symm
      · decide
    rw [hb]
    rfl
  have hsw2 : pyStartsWith (chars "<-") (joinPlus A ++ chars " <=> " ++ joinPlus B) = false := by
    obtain ⟨c, rest0, heq, hcase⟩ := hhead
    rw [heq, pyStartsWith, show chars "<-" = '<' :: ['-'] from rfl, isPrefixOf_cons_cons]
    have hb : ('<' == c) = false := by
      rcases hcase with hal | rfl
      · simp only [beq_eq_false_iff_ne, ne_eq]
        exact fun e => (alphaChar_ne hal).2.1 e.symm
      · decide
    rw [hb]
    rfl
  have hcontD : containsSub (chars "<=>")
      (joinPlus A ++ chars " <=> " ++ joinPlus B) = true := by
    rw [containsSub, show chars "<=>" = '<' :: ['=', '>'] from rfl, hshape, hpart]
    rfl
  have hcls : get_identifier_type (joinPlus A ++ chars " <=> " ++ joinPlus B) =
      .PARAM_DOUBLE := by
    rw [get_identifier_type, hsw1, hsw2, hcontD]
    simp
  have hpi : ∀ (lno : Nat) (raw2 : Str), parse_identifier .PARAM_DOUBLE lno raw2 =
      (if (pySplitWs ((pyPartition ('<' :: ['=', '>']) raw2).getD (raw2, [])).1).length =
            (pySplitWs ((pyPartition ('<' :: ['=', '>']) raw2).getD (raw2, [])).2).length ∧
          (pySplitWs ((pyPartition ('<' :: ['=', '>']) raw2).getD (raw2, [])).1).length = 0 then
        .error (.parseError lno .emptySymbolDecl)
      else do
        let l ← sort_out lno (pySplitWs ((pyPartition ('<' :: ['=', '>']) raw2).getD (raw2, [])).1)
        let r ← sort_out lno (pySplitWs ((pyPartition ('<' :: ['=', '>']) raw2).getD (raw2, [])).2)
        .ok ⟨.PARAM_DOUBLE, l, some r⟩) :=
    fun lno raw2 => by rw [parse_identifier.eq_def]; rfl
  rw [parse_name, hcls, hpi, hshape, hpart]
  simp only [Option.getD_some]
  have hLt : pySplitWs (joinPlus A ++ [' ']) = intersperseP A := by
    rw [splitWs_trailing]
    exact splitWs_joinPlus A hA
  have hRt : pySplitWs (' ' :: joinPlus B) = intersperseP B := by
    rw [splitWs_leading]
    exact splitWs_joinPlus B hB
  rw [hLt, hRt]
  have hguard : ¬((intersperseP A).length = (intersperseP B).length ∧
      (intersperseP A).length = 0) := by
    rintro ⟨h1, h2⟩
    exact hne ⟨intersperseP_eq_nil.mp (List.length_eq_zero.mp h2),
      intersperseP_eq_nil.mp (List.length_eq_zero.mp (h1 ▸ h2))⟩
  rw [if_neg hguard, sort_out_intersperseP ln A hA, sort_out_intersperseP ln B hB]
  rfl

/-- C7: rendering any well-formed reaction identifier (alphabetic
symbols, not both sides empty) with stringify_reaction and re-parsing the
canonical string under its matching operator reproduces an equivalent
identifier: the same left and right symbol sequences, hence multisets,
after normalizing the reverse-alias kind to its forward orientation. -/
theorem spec_c7 (t : IdentifierType) (L R : List Str) (ln : Nat)
    (ht : t = .PARAM_DOUBLE ∨ t = .PARAM_SINGLE_R ∨ t = .PARAM_SINGLE_L)
    (hL : ∀ s ∈ L, isAlphaStr s = true) (hR : ∀ s ∈ R, isAlphaStr s = true)
    (hne : ¬(L = [] ∧ R = [])) :
    parse_name (stringify_reaction ⟨t, L, some R⟩) ln =
      .ok ⟨normKind t, normLeft t L R, some (normRight t L R)⟩ := by
  rcases ht with rfl | rfl | rfl
  · rw [show stringify_reaction ⟨.PARAM_DOUBLE, L, some R⟩ =
        joinPlus L ++ chars " <=> " ++ joinPlus R from rfl]
    rw [parse_name_double L R ln hL hR hne]
    rfl
  · rw [show stringify_reaction ⟨.PARAM_SINGLE_R, L, some R⟩ =
        joinPlus L ++ chars " -> " ++ joinPlus R from rfl]
    rw [parse_name_forward L R ln hL hR hne]
    rfl
  · rw [show stringify_reaction ⟨.PARAM_SINGLE_L, L, some R⟩ =
        joinPlus R ++ chars " -> " ++ joinPlus L from rfl]
    rw [parse_name_forward R L ln hR hL (fun hp => hne ⟨hp.2, hp.1⟩)]
    rfl

/-- C7 witness: the reverse-alias identifier of A <- B renders to B -> A
and re-parses to the forward identifier with the swapped sides. -/
theorem spec_c7_witness :
    (∀ s ∈ [chars "A"], isAlphaStr s = true) ∧
    (∀ s ∈ [chars "B"], isAlphaStr s = true) ∧
    ¬([chars "A"] = ([] : List Str) ∧ [chars "B"] = ([] : List Str)) ∧
    parse_name (stringify_reaction ⟨.PARAM_SINGLE_L, [chars "A"], some [chars "B"]⟩) 1 =
      .ok ⟨.PARAM_SINGLE_R, [chars "B"], some [chars "A"]⟩ := by
  refine ⟨by decide, by decide, by decide, ?_⟩
  have h := spec_c7 .PARAM_SINGLE_L [chars "A"] [chars "B"] 1 (Or.inr (Or.inr rfl))
    (by decide) (by decide) (by decide)
  simpa [normKind, normLeft, normRight] using h

end Dynamo
